import Mathlib

/-!
Shallow embedding of the readability-guided annotation engine found in
`glossary-extraction/` (validation-framework.py, update_protocols.py,
identify-degraded-protocols.py, repair-degraded-protocols.py,
repair-degraded-protocols-v2.py), together with proofs of the testable
properties stated for it.

Texts are modelled as `List Char`.  Python floats are modelled as `ℚ`
(all constants appearing in the source are decimal literals, exactly
representable); `round(x, 2)` is modelled as rounding to a multiple of
1/100.  Regex operations are modelled by deterministic scanners that
mirror the behaviour of the concrete patterns used in the source
(each pattern is simple enough that its backtracking semantics is
deterministic; this is argued in the comment next to each scanner).
Fuel arguments (always instantiated with the length of the scanned
text) make the scanners structurally recursive.
-/

set_option maxHeartbeats 2000000
set_option maxRecDepth 4000

abbrev Text := List Char

/-- Whitespace characters recognised by Python's `str.strip()` / `str.split()`
(ASCII fragment). -/
def isPyWs (c : Char) : Bool :=
  c = ' ' || c = '\t' || c = '\n' || c = '\r' || c = '\x0b' || c = '\x0c'

/-- Python `str.strip()`: remove leading and trailing whitespace. -/
def pyStrip (s : Text) : Text :=
  ((s.dropWhile isPyWs).reverse.dropWhile isPyWs).reverse

/-- Split a text at each maximal run of characters satisfying `p`,
keeping empty fragments, as Python's `re.split` with pattern `[sep]+` does.
The fuel is the length of the text. -/
def splitRunsAux (p : Char → Bool) : Nat → Text → Text → List Text
  | _, [], cur => [cur.reverse]
  | 0, s, cur => [cur.reverse ++ s]
  | fuel+1, c :: rest, cur =>
    if p c then cur.reverse :: splitRunsAux p fuel (rest.dropWhile p) []
    else splitRunsAux p fuel rest (c :: cur)

def splitRuns (p : Char → Bool) (s : Text) : List Text :=
  splitRunsAux p s.length s []

/-- Python `str.split()` with no argument: split on whitespace runs and
drop empty fragments. -/
def pySplit (s : Text) : List Text :=
  (splitRuns isPyWs s).filter (fun w => !w.isEmpty)

/-- Python `' '.join(ws)`. -/
def joinSpace (ws : List Text) : Text :=
  List.intercalate [' '] ws

/-- Sentence-ending punctuation used by the framework (`[.!?]`). -/
def isSentenceEnd (c : Char) : Bool :=
  c = '.' || c = '!' || c = '?'

def isAsciiAlpha (c : Char) : Bool :=
  ('a' ≤ c && c ≤ 'z') || ('A' ≤ c && c ≤ 'Z')

def isAsciiDigit (c : Char) : Bool :=
  '0' ≤ c && c ≤ '9'

/-- Characters matched by `\w` (ASCII fragment), used for `\b` boundaries. -/
def isWordChar (c : Char) : Bool :=
  isAsciiAlpha c || isAsciiDigit c || c = '_'

def isLowerAZ (c : Char) : Bool :=
  'a' ≤ c && c ≤ 'z'

/-- Vowels counted by the syllable heuristic (`[aeiouy]`). -/
def isVowel (c : Char) : Bool :=
  c = 'a' || c = 'e' || c = 'i' || c = 'o' || c = 'u' || c = 'y'

/-- Number of maximal runs of characters satisfying `p`
(`len(re.findall(r'[p]+', s))`).  The Boolean argument records whether the
previous character satisfied `p`. -/
def countRunsAux (p : Char → Bool) : Text → Bool → Nat
  | [], _ => 0
  | c :: rest, inRun =>
    if p c then (if inRun then 0 else 1) + countRunsAux p rest true
    else countRunsAux p rest false

def countRuns (p : Char → Bool) (s : Text) : Nat :=
  countRunsAux p s false

def toLowerText (s : Text) : Text :=
  s.map Char.toLower

/-- Embedding of `count_syllables` (validation-framework.py, lines 55-81):
lower-case the word, strip it, keep only `a`-`z`, return 0 if nothing is
left, otherwise count vowel runs, subtract one for a final silent `e`
when more than one run exists, and floor at 1. -/
def count_syllables (w : Text) : Nat :=
  let word := (pyStrip (toLowerText w)).filter isLowerAZ
  if word.isEmpty then 0
  else
    let groups := countRuns isVowel word
    let groups := if word.getLast? = some 'e' ∧ groups > 1 then groups - 1 else groups
    max 1 groups

/-- Definition written from the specification text for `countSyllables`:
the number of maximal vowel runs of the lower-cased alphabetic-only form,
minus one for a trailing `e` when more than one run exists, floored at 1.
Used to compare the claim against `count_syllables`. -/
def specSyllables (w : Text) : Nat :=
  let form := (toLowerText w).filter isLowerAZ
  let runs := countRuns isVowel form
  max 1 (if form.getLast? = some 'e' ∧ runs > 1 then runs - 1 else runs)

/-- Abbreviation alternatives of the protection pattern
`\b(Dr|Mr|Mrs|Ms|etc|i\.e|e\.g)\.` in source order. -/
def abbrevAlternatives : List Text :=
  [['D','r'], ['M','r'], ['M','r','s'], ['M','s'],
   ['e','t','c'], ['i','.','e'], ['e','.','g']]

/-- Case-insensitive equality of equally long texts
(`re.IGNORECASE` literal matching). -/
def lowerEq : Text → Text → Bool
  | [], [] => true
  | c :: cs, d :: ds => (c.toLower == d.toLower) && lowerEq cs ds
  | _, _ => false

/-- Try to match one abbreviation alternative followed by a literal `.` at the
head of `s`; the alternatives are tried in pattern order, exactly as the
regex alternation does.  Returns the matched source characters (the
group `\1`) and the remaining text after the dot. -/
def matchAbbrevHead (s : Text) : List Text → Option (Text × Text)
  | [] => none
  | alt :: alts =>
    let pre := s.take alt.length
    if lowerEq pre alt then
      match s.drop alt.length with
      | '.' :: rest => some (pre, rest)
      | _ => matchAbbrevHead s alts
    else matchAbbrevHead s alts

/-- Scanner for
`re.sub(r'\b(Dr|Mr|Mrs|Ms|etc|i\.e|e\.g)\.', r'\1<PERIOD>', text, re.IGNORECASE)`
(count_sentences, validation-framework.py line 92).  `prevWord` tracks
whether the previous character is a `\w` character (the `\b` condition:
all alternatives start with a word character, so `\b` holds exactly when
the previous character is not a word character). -/
def protectAbbrevAux : Nat → Text → Bool → Text
  | _, [], _ => []
  | 0, s, _ => s
  | fuel+1, c :: rest, prevWord =>
    match (if prevWord then none else matchAbbrevHead (c :: rest) abbrevAlternatives) with
    | some (pre, after) =>
      pre ++ ('<' :: 'P' :: 'E' :: 'R' :: 'I' :: 'O' :: 'D' :: '>' :: [])
        ++ protectAbbrevAux fuel after true
    | none => c :: protectAbbrevAux fuel rest (isWordChar c)

def protectAbbrev (s : Text) : Text :=
  protectAbbrevAux s.length s false

/-- Embedding of `count_sentences` (validation-framework.py, lines 84-100):
protect abbreviations, split on runs of `.!?`, keep fragments whose strip
is non-empty, floor at 1. -/
def count_sentences (text : Text) : Nat :=
  let protected_text := protectAbbrev text
  let sentences := splitRuns isSentenceEnd protected_text
  let sentences := (sentences.map pyStrip).filter (fun s => !s.isEmpty)
  max 1 sentences.length

/-- Rounding of a rational to two decimal places, modelling Python's
`round(x, 2)` on the exact value. -/
def round2 (x : ℚ) : ℚ :=
  ((x * 100 + 1/2).floor : ℚ) / 100

/-- Embedding of `calculate_flesch_kincaid_grade` (validation-framework.py,
lines 103-124).  The `text` argument is unused in the source as well. -/
def calculate_flesch_kincaid_grade (_text : Text)
    (word_count sentence_count syllable_count : Nat) : ℚ :=
  if word_count = 0 ∨ sentence_count = 0 then 0
  else
    let avg_words_per_sentence : ℚ := (word_count : ℚ) / (sentence_count : ℚ)
    let avg_syllables_per_word : ℚ := (syllable_count : ℚ) / (word_count : ℚ)
    round2 ((39/100) * avg_words_per_sentence + (118/10) * avg_syllables_per_word - 1559/100)

/-- Embedding of `calculate_flesch_reading_ease` (validation-framework.py,
lines 127-150). -/
def calculate_flesch_reading_ease (_text : Text)
    (word_count sentence_count syllable_count : Nat) : ℚ :=
  if word_count = 0 ∨ sentence_count = 0 then 0
  else
    let avg_words_per_sentence : ℚ := (word_count : ℚ) / (sentence_count : ℚ)
    let avg_syllables_per_word : ℚ := (syllable_count : ℚ) / (word_count : ℚ)
    round2 (206835/1000 - (1015/1000) * avg_words_per_sentence - (846/10) * avg_syllables_per_word)

/-- Remove every non-overlapping occurrence of the literal `pat`
(`re.sub(re.escape(pat), '', s)` semantics for the patterns `\*\*` and `\*`). -/
def removeAllSubAux (pat : Text) : Nat → Text → Text
  | _, [] => []
  | 0, s => s
  | fuel+1, c :: rest =>
    if !pat.isEmpty && pat.isPrefixOf (c :: rest) then
      removeAllSubAux pat fuel ((c :: rest).drop pat.length)
    else c :: removeAllSubAux pat fuel rest

def removeAllSub (pat : Text) (s : Text) : Text :=
  removeAllSubAux pat s.length s

/-- Scanner for `re.sub(r'#{1,6}\s', '', s)`: at a `#`, the greedy bounded
repetition matches exactly when the full run of `#` from here has length
at most 6 and is followed by a whitespace character; the hashes and the
whitespace character are removed.  A longer run never matches at its own
start (every shorter prefix is followed by another `#`). -/
def removeHeadersAux : Nat → Text → Text
  | _, [] => []
  | 0, s => s
  | fuel+1, c :: rest =>
    if c = '#' then
      let run := (c :: rest).takeWhile (fun d => d = '#')
      let after := (c :: rest).dropWhile (fun d => d = '#')
      let nextWs : Bool := match after with | d :: _ => isPyWs d | [] => false
      if decide (run.length ≤ 6) && nextWs then
        removeHeadersAux fuel (after.drop 1)
      else c :: removeHeadersAux fuel rest
    else c :: removeHeadersAux fuel rest

def removeHeaders (s : Text) : Text :=
  removeHeadersAux s.length s

/-- Scanner for `re.sub(r'\[([^\]]+)\]\([^)]+\)', r'\1', s)` (markdown links,
keeping the link text).  `[^\]]+` stops at the first `]` and `[^)]+` at the
first `)`, so the match is deterministic. -/
def removeLinksAux : Nat → Text → Text
  | _, [] => []
  | 0, s => s
  | fuel+1, c :: rest =>
    (if c = '[' then
      let t := rest.takeWhile (fun d => d != ']')
      match rest.dropWhile (fun d => d != ']') with
      | _ :: r1 =>
        if t.isEmpty then none
        else match r1 with
          | '(' :: r2 =>
            let u := r2.takeWhile (fun d => d != ')')
            match r2.dropWhile (fun d => d != ')') with
            | _ :: r3 => if u.isEmpty then none else some (t, r3)
            | [] => none
          | _ => none
      | [] => none
    else none).elim (c :: removeLinksAux fuel rest) (fun pr => pr.1 ++ removeLinksAux fuel pr.2)

def removeLinks (s : Text) : Text :=
  removeLinksAux s.length s

/-- Scanner for `re.finditer(r'\b[a-zA-Z]+\b', s)`: a maximal alphabetic run
matches exactly when the character before it and the character after it
are not word characters (a digit or underscore neighbour makes every
start inside the run fail the `\b` test). -/
def extractWordsAux : Nat → Text → Bool → List Text
  | _, [], _ => []
  | 0, _, _ => []
  | fuel+1, c :: rest, prevWord =>
    if isAsciiAlpha c ∧ !prevWord then
      let run := (c :: rest).takeWhile isAsciiAlpha
      let after := (c :: rest).dropWhile isAsciiAlpha
      let nextOk := match after with | [] => true | d :: _ => !isWordChar d
      if nextOk then run :: extractWordsAux fuel after true
      else extractWordsAux fuel after true
    else extractWordsAux fuel rest (isWordChar c)

def extractWords (s : Text) : List Text :=
  extractWordsAux s.length s false

/-- Embedding of `analyze_text_complexity` (validation-framework.py, lines
153-175): strip `**`, `*`, headers and links, then count words, sentences
and syllables. -/
def analyze_text_complexity (text : Text) : Nat × Nat × Nat :=
  let clean_text := removeAllSub ['*', '*'] text
  let clean_text := removeAllSub ['*'] clean_text
  let clean_text := removeHeaders clean_text
  let clean_text := removeLinks clean_text
  let words := extractWords clean_text
  let word_count := words.length
  let sentence_count := count_sentences clean_text
  let syllable_count := (words.map count_syllables).sum
  (word_count, sentence_count, syllable_count)

/-- Stable insertion: place `a` after every element `b` of the (sorted)
list with `le b a`.  Folding `insertLe` over a list from the left yields a
stable sort, the behaviour guaranteed for Python's `sorted`. -/
def insertLe (le : α → α → Bool) (a : α) : List α → List α
  | [] => [a]
  | b :: l => if le b a then b :: insertLe le a l else a :: b :: l

def sortByAux (le : α → α → Bool) : List α → List α → List α
  | [], acc => acc
  | a :: rest, acc => sortByAux le rest (insertLe le a acc)

/-- Stable sort by a Boolean relation, modelling Python's `sorted`
(`sorted(l, key=k)` is `sortBy (fun a b => k a ≤ k b) l`;
`sorted(l, key=k, reverse=True)` is `sortBy (fun a b => k b ≤ k a) l`). -/
def sortBy (le : α → α → Bool) (l : List α) : List α :=
  sortByAux le l []

/-- Glossary entry as read from the JSON glossary; optional fields model
`dict.get` with its fallbacks (update_protocols.py, lines 97-111). -/
structure GlossaryEntry where
  clinical_term : Text
  user_friendly_term : Option Text
  explanation : Option Text
  category : Option Text
deriving DecidableEq, Repr

/-- The definition used for an entry:
`entry.get('user_friendly_term', entry.get('explanation', ''))`. -/
def entryDefinition (e : GlossaryEntry) : Text :=
  e.user_friendly_term.getD (e.explanation.getD [])

/-- The category used for a match: `entry.get('category', 'general')`. -/
def entryCategory (e : GlossaryEntry) : Text :=
  e.category.getD ("general".toList)

/-- A term match produced by `find_technical_terms` (the dict built at
update_protocols.py, lines 105-112). -/
structure TermMatch where
  term : Text
  position : Nat
  end_position : Nat
  definition : Text
  category : Text
deriving DecidableEq, Repr

/-- Whether the character at index `i` of `s` is a `\w` character
(out-of-range counts as not). -/
def wordCharAt (s : Text) (i : Nat) : Bool :=
  match s.drop i with
  | c :: _ => isWordChar c
  | [] => false

/-- The `\b` condition at position `i`: a word character on exactly one
side of the position. -/
def boundaryAt (s : Text) (i : Nat) : Bool :=
  (match i with | 0 => false | j+1 => wordCharAt s j) != wordCharAt s i

/-- Whether the literal `lit` matches at position `i` of `s` under
`re.IGNORECASE`, with `\b` required on both sides
(pattern `r'\b' + re.escape(term) + r'\b'`). -/
def matchAt (s : Text) (i : Nat) (lit : Text) : Bool :=
  boundaryAt s i && boundaryAt s (i + lit.length) && lowerEq ((s.drop i).take lit.length) lit

/-- Scanner for `re.finditer`: leftmost matches, continuing after each
match (advancing one position after an empty match). -/
def findIterAux (s lit : Text) : Nat → Nat → List (Nat × Nat)
  | 0, _ => []
  | fuel+1, i =>
    if i > s.length then []
    else if matchAt s i lit then
      (i, i + lit.length) :: findIterAux s lit fuel (i + max lit.length 1)
    else findIterAux s lit fuel (i + 1)

def findIter (s lit : Text) : List (Nat × Nat) :=
  findIterAux s lit (s.length + 1) 0

/-- Python slicing `s[p:q]`. -/
def pySlice (s : Text) (p q : Nat) : Text :=
  (s.drop p).take (q - p)

/-- The overlap test of `find_technical_terms` (update_protocols.py, lines
120-123): `start <= pos < end or start < end_pos <= end`. -/
def overlapHit (r : Nat × Nat) (pos end_pos : Nat) : Bool :=
  (decide (r.1 ≤ pos) && decide (pos < r.2)) || (decide (r.1 < end_pos) && decide (end_pos ≤ r.2))

/-- The left-to-right sweep of `find_technical_terms` (lines 114-127): keep
a match only when its range does not hit any previously kept range. -/
def sweepAux : List TermMatch → List (Nat × Nat) → List TermMatch
  | [], _ => []
  | t :: rest, seen =>
    if seen.any (fun r => overlapHit r t.position t.end_position) then sweepAux rest seen
    else t :: sweepAux rest (seen ++ [(t.position, t.end_position)])

/-- Embedding of `find_technical_terms` (update_protocols.py, lines 86-129):
sort the glossary by term length descending, collect all case-insensitive
whole-word matches of each term (lower-cased), sort all matches by start
position, and sweep left-to-right dropping overlaps. -/
def find_technical_terms (protocol_text : Text) (glossary : List GlossaryEntry) :
    List TermMatch :=
  let sorted_glossary :=
    sortBy (fun a b => decide (b.clinical_term.length ≤ a.clinical_term.length)) glossary
  let technical_terms := sorted_glossary.flatMap (fun entry =>
    (findIter protocol_text (toLowerText entry.clinical_term)).map (fun pq =>
      { term := pySlice protocol_text pq.1 pq.2
        position := pq.1
        end_position := pq.2
        definition := entryDefinition entry
        category := entryCategory entry }))
  sweepAux (sortBy (fun a b => decide (a.position ≤ b.position)) technical_terms) []

/-- Priority score of a match (update_protocols.py, lines 159-163). -/
def priorityScore (m : TermMatch) : ℚ :=
  ((1000 : ℚ) - (m.position : ℚ)) * (4/10)
    + (m.definition.length : ℚ) * (3/10)
    + (if m.category = ("neuroscience".toList) then (100 : ℚ) else 50) * (3/10)

/-- The tooltip markup `f"{{{{{term}||{definition}}}}}"`. -/
def tooltipMarkup (term definition : Text) : Text :=
  '{' :: '{' :: (term ++ '|' :: '|' :: (definition ++ ['}', '}']))

/-- One injection step (update_protocols.py, line 188):
`updated_text[:pos] + tooltip + updated_text[end_pos:]`. -/
def renderStep (txt : Text) (m : TermMatch) : Text :=
  txt.take m.position ++ tooltipMarkup m.term m.definition ++ txt.drop m.end_position

/-- Python dict assignment `d[k] = v`: replace the value of an existing
key, otherwise append the binding. -/
def dictInsert (k v : Text) : List (Text × Text) → List (Text × Text)
  | [] => [(k, v)]
  | (k', v') :: rest => if k' = k then (k, v) :: rest else (k', v') :: dictInsert k v rest

/-- The matches selected for injection (update_protocols.py, lines 153-172):
sort by priority descending, take the first `max_tooltips`, then sort by
position descending for right-to-left rewriting. -/
def injectSelected (protocol_text : Text) (glossary : List GlossaryEntry)
    (max_tooltips : Nat) : List TermMatch :=
  let terms := find_technical_terms protocol_text glossary
  let by_priority := sortBy (fun a b => decide (priorityScore b ≤ priorityScore a)) terms
  let top_terms := by_priority.take max_tooltips
  sortBy (fun a b => decide (b.position ≤ a.position)) top_terms

/-- Embedding of `inject_tooltips` (update_protocols.py, lines 132-193):
returns the rewritten text and the `terms_used` mapping.  With no matches
the input text and an empty dict are returned unchanged. -/
def inject_tooltips (protocol_text : Text) (glossary : List GlossaryEntry)
    (max_tooltips : Nat := 5) : Text × List (Text × Text) :=
  let terms := find_technical_terms protocol_text glossary
  if terms.isEmpty then (protocol_text, [])
  else
    (injectSelected protocol_text glossary max_tooltips).foldl
      (fun acc m => (renderStep acc.1 m, dictInsert m.term m.definition acc.2))
      (protocol_text, [])

/-- The `tooltips_added` field reported by `update_protocol`
(update_protocols.py, line 278): the size of the `terms_used` dict. -/
def tooltips_added (protocol_text : Text) (glossary : List GlossaryEntry)
    (max_tooltips : Nat := 5) : Nat :=
  (inject_tooltips protocol_text glossary max_tooltips).2.length

/-- Deterministic scanner for one attempted match of the validator's strip
pattern `\{\{([^|]+)\|[^}]+\}\}` (update_protocols.py, line 218), given the
text after the two opening braces: `[^|]+` is the maximal non-empty run up
to the first `|`, `\|` consumes that pipe, `[^}]+` is the maximal non-empty
run up to the first `}` (this run swallows the second pipe of `||` and the
definition), and `\}\}` requires two closing braces.  Shrinking either run
by backtracking makes the next literal fail, so the greedy parse is the
only possible one.  Returns the group `\1` and the rest of the text. -/
def stripBodyClose (t d : Text) : Text → Option (Text × Text)
  | _ :: e2 :: rest3 =>
    if d.isEmpty then none
    else if e2 = '}' then some (t, rest3) else none
  | _ => none

def stripBodyPipe (t : Text) : Text → Option (Text × Text)
  | _ :: rest2 =>
    if t.isEmpty then none
    else stripBodyClose t (rest2.takeWhile (fun c => c != '}'))
      (rest2.dropWhile (fun c => c != '}'))
  | [] => none

def stripBody (rest : Text) : Option (Text × Text) :=
  stripBodyPipe (rest.takeWhile (fun c => c != '|')) (rest.dropWhile (fun c => c != '|'))

/-- Attempted match of the strip pattern at the head of the text. -/
def stripMatch (s : Text) : Option (Text × Text) :=
  match s with
  | c1 :: c2 :: rest => if c1 = '{' ∧ c2 = '{' then stripBody rest else none
  | _ => none

/-- Scanner for `re.sub(r'\{\{([^|]+)\|[^}]+\}\}', r'\1', s)`: leftmost
matches replaced by their group, other characters copied. -/
def stripTooltipsAux : Nat → Text → Text
  | _, [] => []
  | 0, s => s
  | fuel+1, c :: rest =>
    match stripMatch (c :: rest) with
    | some (t, rest3) => t ++ stripTooltipsAux fuel rest3
    | none => c :: stripTooltipsAux fuel rest

def stripTooltips (s : Text) : Text :=
  stripTooltipsAux s.length s

/-- Number of non-overlapping occurrences of `pat` (`str.count`). -/
def countSubAux (pat : Text) : Nat → Text → Nat
  | _, [] => 0
  | 0, _ => 0
  | fuel+1, c :: rest =>
    if !pat.isEmpty && pat.isPrefixOf (c :: rest) then
      1 + countSubAux pat fuel ((c :: rest).drop pat.length)
    else countSubAux pat fuel rest

def countSub (pat s : Text) : Nat :=
  countSubAux pat s.length s

/-- After an opening `{{`: does another `{{` appear before the next `}`
(the `[^}]*\{\{` part of the nested-tooltip pattern)? -/
def nestedAfter : Text → Bool
  | '{' :: '{' :: _ => true
  | c :: rest => if c = '}' then false else nestedAfter rest
  | [] => false

/-- Search for `re.search(r'\{\{[^}]*\{\{', s)`. -/
def hasNested : Text → Bool
  | [] => false
  | c :: rest =>
    (match c :: rest with
     | '{' :: '{' :: r => nestedAfter r
     | _ => false) || hasNested rest

/-- Embedding of `validate_tooltip_injection` (update_protocols.py, lines
196-230): nested check, balanced `{{`/`}}` counts, round-trip check with a
whitespace-stripped fallback, and markdown-marker parity checks, in order,
short-circuiting on the first failure. -/
def validate_tooltip_injection (original simplified : Text) : Bool × String :=
  if hasNested simplified then (false, "Nested tooltips detected")
  else
    let open_count := countSub ['{', '{'] simplified
    let close_count := countSub ['}', '}'] simplified
    if open_count ≠ close_count then
      (false, "Unbalanced tooltips: " ++ toString open_count ++ " open, "
        ++ toString close_count ++ " close")
    else
      let stripped := stripTooltips simplified
      if stripped ≠ original ∧ pyStrip stripped ≠ pyStrip original then
        (false, "Original content altered")
      else
        let markers : List Text := [['*', '*'], ['*'], ['_', '_'], ['_']]
        match markers.find? (fun m => countSub m simplified % 2 ≠ 0) with
        | some m => (false, "Unbalanced markdown marker: " ++ m.asString)
        | none => (true, "Valid")

/-- Deterministic scanner for one attempted match of the tooltip pattern
`\{\{([^|]+)\|\|([^}]+)\}\}` at the head of the text (used by the repair
and diagnosis scripts).  As for `stripBody`, the greedy parse is the only
possible one; here both pipes are explicit in the pattern.  Returns the
two groups and the remaining text. -/
def tooltipMatch2 (s : Text) : Option (Text × Text × Text) :=
  match s with
  | c1 :: c2 :: rest =>
    if c1 = '{' ∧ c2 = '{' then
      let t := rest.takeWhile (fun c => c != '|')
      match rest.dropWhile (fun c => c != '|') with
      | _ :: p2 :: rest2 =>
        if t.isEmpty then none
        else if p2 = '|' then
          let d := rest2.takeWhile (fun c => c != '}')
          match rest2.dropWhile (fun c => c != '}') with
          | _ :: e2 :: rest3 =>
            if d.isEmpty then none
            else if e2 = '}' then some (t, d, rest3) else none
          | _ => none
        else none
      | _ => none
    else none
  | _ => none

/-- Embedding of `simplify_tooltip_definition`
(repair-degraded-protocols.py, lines 55-78): keep the first sentence,
truncated to 12 words with an ellipsis. -/
def simplify_tooltip_definition (definition : Text) : Text :=
  let sentences := splitRuns isSentenceEnd definition
  let first_sentence := match sentences with
    | [] => definition
    | s0 :: _ => pyStrip s0
  let words := pySplit first_sentence
  if words.length > 12 then joinSpace (words.take 12) ++ ("...".toList)
  else first_sentence

/-- Scanner for the `re.sub` with function replacement in
`extract_and_simplify_tooltips` (repair-degraded-protocols.py, lines
80-99), with `simplify=True`: each tooltip is rewritten with its stripped
term and its simplified stripped definition. -/
def extractAndSimplifyAux : Nat → Text → Text
  | _, [] => []
  | 0, s => s
  | fuel+1, c :: rest =>
    match tooltipMatch2 (c :: rest) with
    | some (t, d, rest3) =>
      tooltipMarkup (pyStrip t) (simplify_tooltip_definition (pyStrip d))
        ++ extractAndSimplifyAux fuel rest3
    | none => c :: extractAndSimplifyAux fuel rest

def extract_and_simplify_tooltips (text : Text) : Text :=
  extractAndSimplifyAux text.length text

/-- Scanner for `remove_complex_tooltips` (repair-degraded-protocols.py,
lines 101-126): a tooltip whose stripped definition scores above the
threshold is replaced by its stripped term and counted; other tooltips
are kept verbatim.  Returns the rewritten text and the removal count. -/
def removeComplexAux (threshold : ℚ) : Nat → Text → Text × Nat
  | _, [] => ([], 0)
  | 0, s => (s, 0)
  | fuel+1, c :: rest =>
    match tooltipMatch2 (c :: rest) with
    | some (t, d, rest3) =>
      let definition := pyStrip d
      let counts := analyze_text_complexity definition
      let reading_level :=
        calculate_flesch_kincaid_grade definition counts.1 counts.2.1 counts.2.2
      let tail := removeComplexAux threshold fuel rest3
      if reading_level > threshold then (pyStrip t ++ tail.1, tail.2 + 1)
      else (tooltipMarkup t d ++ tail.1, tail.2)
    | none =>
      let tail := removeComplexAux threshold fuel rest
      (c :: tail.1, tail.2)

def remove_complex_tooltips (text : Text) (reading_level_threshold : ℚ := 8) :
    Text × Nat :=
  removeComplexAux reading_level_threshold text.length text

/-- Tooltip record built by `extract_tooltips_from_text`
(identify-degraded-protocols.py, lines 54-79); the complexity fields are
computed on the raw (unstripped) definition group, as in the source. -/
structure TooltipInfo where
  term : Text
  definition : Text
  len : Nat
  word_count : Nat
  reading_level : ℚ
deriving DecidableEq, Repr

/-- Scanner for `re.findall(r'\{\{([^|]+)\|\|([^}]+)\}\}', text)`. -/
def findallTooltipsAux : Nat → Text → List (Text × Text)
  | _, [] => []
  | 0, _ => []
  | fuel+1, c :: rest =>
    match tooltipMatch2 (c :: rest) with
    | some (t, d, rest3) => (t, d) :: findallTooltipsAux fuel rest3
    | none => findallTooltipsAux fuel rest

def extract_tooltips_from_text (text : Text) : List TooltipInfo :=
  (findallTooltipsAux text.length text).map (fun td =>
    let counts := analyze_text_complexity td.2
    { term := pyStrip td.1
      definition := pyStrip td.2
      len := td.2.length
      word_count := counts.1
      reading_level := calculate_flesch_kincaid_grade td.2 counts.1 counts.2.1 counts.2.2 })

/-- Scanner counting matches of `\{\{[^}]+\}\}` (the density pattern,
identify-degraded-protocols.py line 88). -/
def countDensityAux : Nat → Text → Nat
  | _, [] => 0
  | 0, _ => 0
  | fuel+1, c :: rest =>
    match c :: rest with
    | '{' :: '{' :: r =>
      let b := r.takeWhile (fun ch => ch != '}')
      match r.dropWhile (fun ch => ch != '}') with
      | _ :: e2 :: r3 =>
        if !b.isEmpty && e2 = '}' then 1 + countDensityAux fuel r3
        else countDensityAux fuel rest
      | _ => countDensityAux fuel rest
    | _ => countDensityAux fuel rest

def countDensityTooltips (s : Text) : Nat :=
  countDensityAux s.length s

/-- Per-sentence record of `analyze_sentence_tooltip_density`
(identify-degraded-protocols.py, lines 93-105). -/
structure SentenceDensity where
  sentence : Text
  tooltip_count : Nat
  sentence_length : Nat
deriving DecidableEq, Repr

/-- Result dict of `analyze_sentence_tooltip_density`
(identify-degraded-protocols.py, lines 81-111). -/
structure DensityAnalysis where
  max_tooltips_per_sentence : Nat
  avg_tooltips_per_sentence : ℚ
  high_density_sentences : List SentenceDensity
deriving DecidableEq, Repr

def analyze_sentence_tooltip_density (text : Text) : DensityAnalysis :=
  let sentences := splitRuns isSentenceEnd text
  let kept := sentences.filter (fun s => !(pyStrip s).isEmpty)
  let sentence_analysis := (kept.map (fun s =>
      { sentence := (pyStrip s).take 100 ++ ("...".toList)
        tooltip_count := countDensityTooltips s
        sentence_length := (pySplit s).length : SentenceDensity })).filter
    (fun r => r.tooltip_count > 0)
  let max_tooltips := (kept.map countDensityTooltips).foldl max 0
  { max_tooltips_per_sentence := max_tooltips
    avg_tooltips_per_sentence :=
      (sentence_analysis.length : ℚ) / (max sentences.length 1 : ℚ)
    high_density_sentences := sentence_analysis.filter (fun s => s.tooltip_count ≥ 3) }

/-- Protocol record: the database row fields consumed by the diagnosis and
repair scripts. -/
structure Protocol where
  id : String
  chunk_text : Text
  simplified_text : Text
  chunk_summary : String
  reading_level_before : ℚ
  reading_level_after : ℚ
deriving DecidableEq, Repr

/-- Diagnosis dict returned by `diagnose_degradation`
(identify-degraded-protocols.py, lines 113-166). -/
structure Diagnosis where
  protocol_id : String
  chunk_summary : String
  reading_level_before : ℚ
  reading_level_after : ℚ
  degradation : ℚ
  tooltip_count : Nat
  long_tooltips : Nat
  complex_tooltips : Nat
  max_tooltips_per_sentence : Nat
  primary_causes : List String
  repair_strategies : List String
  tooltip_details : List TooltipInfo
  high_density_sentences : List SentenceDensity
deriving DecidableEq, Repr

/-- Embedding of `diagnose_degradation` (identify-degraded-protocols.py,
lines 113-166): the three checks on the injected tooltips each contribute
one candidate repair strategy, with `manual_review` added only when no
check fires. -/
def diagnose_degradation (protocol : Protocol) : Diagnosis :=
  let tooltips := extract_tooltips_from_text protocol.simplified_text
  let long_tooltips := tooltips.filter (fun t => t.word_count > 15)
  let complex_tooltips := tooltips.filter (fun t => t.reading_level > 8)
  let density_analysis := analyze_sentence_tooltip_density protocol.simplified_text
  let causes_strategies :=
    (if long_tooltips.length > 0 then
      [(toString long_tooltips.length ++ " tooltips exceed 15 words", "shorten_definitions")]
     else []) ++
    (if complex_tooltips.length > 0 then
      [(toString complex_tooltips.length ++ " tooltips exceed Grade 8 reading level",
        "simplify_language")]
     else []) ++
    (if density_analysis.max_tooltips_per_sentence ≥ 3 then
      [("High tooltip density (" ++ toString density_analysis.max_tooltips_per_sentence
          ++ " in one sentence)", "remove_tooltips")]
     else [])
  let causes_strategies :=
    if causes_strategies.isEmpty then
      [("Unknown cause - requires manual review", "manual_review")]
    else causes_strategies
  { protocol_id := protocol.id
    chunk_summary := protocol.chunk_summary
    reading_level_before := protocol.reading_level_before
    reading_level_after := protocol.reading_level_after
    degradation := protocol.reading_level_after - protocol.reading_level_before
    tooltip_count := tooltips.length
    long_tooltips := long_tooltips.length
    complex_tooltips := complex_tooltips.length
    max_tooltips_per_sentence := density_analysis.max_tooltips_per_sentence
    primary_causes := causes_strategies.map Prod.fst
    repair_strategies := causes_strategies.map Prod.snd
    tooltip_details := tooltips.take 3
    high_density_sentences := density_analysis.high_density_sentences.take 2 }

/-- Repair result dict of `repair_protocol` (repair-degraded-protocols.py,
lines 128-182). -/
structure RepairResult where
  protocol_id : String
  chunk_summary : String
  reading_level_before : ℚ
  reading_level_after : ℚ
  reading_level_repaired : ℚ
  degradation : ℚ
  repair_improvement : ℚ
  net_change : ℚ
  strategy_applied : Option String
  tooltips_modified : Nat
  should_update : Bool
  repaired_text : Text
deriving DecidableEq, Repr

/-- Embedding of `repair_protocol` (repair-degraded-protocols.py, lines
128-182): the first applicable strategy of the if/elif chain is applied;
the repaired text is rescored and `should_update` requires an improvement
above 0.1 with the repaired score strictly below the degraded score. -/
def repair_protocol (protocol : Protocol) (diagnosis : Diagnosis) : RepairResult :=
  let simplified_text := protocol.simplified_text
  let step :=
    if "simplify_language" ∈ diagnosis.repair_strategies then
      (extract_and_simplify_tooltips simplified_text, some "simplify_language", 0)
    else if "remove_tooltips" ∈ diagnosis.repair_strategies then
      let rc := remove_complex_tooltips simplified_text 8
      (rc.1, some "remove_tooltips", rc.2)
    else if "manual_review" ∈ diagnosis.repair_strategies then
      (simplified_text, some "manual_review", 0)
    else (simplified_text, none, 0)
  let repaired_text := step.1
  let counts := analyze_text_complexity repaired_text
  let reading_level_repaired :=
    calculate_flesch_kincaid_grade repaired_text counts.1 counts.2.1 counts.2.2
  let improvement := diagnosis.reading_level_after - reading_level_repaired
  { protocol_id := protocol.id
    chunk_summary := diagnosis.chunk_summary
    reading_level_before := diagnosis.reading_level_before
    reading_level_after := diagnosis.reading_level_after
    reading_level_repaired := reading_level_repaired
    degradation := diagnosis.degradation
    repair_improvement := improvement
    net_change := reading_level_repaired - diagnosis.reading_level_before
    strategy_applied := step.2.1
    tooltips_modified := step.2.2
    should_update :=
      decide (improvement > 1/10) && decide (reading_level_repaired < diagnosis.reading_level_after)
    repaired_text := repaired_text }

/-- Repair result dict of `repair_protocol_revert`
(repair-degraded-protocols-v2.py, lines 47-81). -/
structure RevertResult where
  protocol_id : String
  chunk_summary : String
  reading_level_before : ℚ
  reading_level_after : ℚ
  reading_level_repaired : ℚ
  degradation : ℚ
  repair_improvement : ℚ
  net_change : ℚ
  strategy_applied : String
  should_update : Bool
  repaired_text : Text
deriving DecidableEq, Repr

/-- Embedding of `repair_protocol_revert` (repair-degraded-protocols-v2.py,
lines 47-81): the repaired text is the original text, rescored. -/
def repair_protocol_revert (protocol : Protocol) (diagnosis : Diagnosis) : RevertResult :=
  let repaired_text := protocol.chunk_text
  let counts := analyze_text_complexity repaired_text
  let reading_level_repaired :=
    calculate_flesch_kincaid_grade repaired_text counts.1 counts.2.1 counts.2.2
  { protocol_id := protocol.id
    chunk_summary := diagnosis.chunk_summary
    reading_level_before := diagnosis.reading_level_before
    reading_level_after := diagnosis.reading_level_after
    reading_level_repaired := reading_level_repaired
    degradation := diagnosis.degradation
    repair_improvement := diagnosis.reading_level_after - reading_level_repaired
    net_change := reading_level_repaired - diagnosis.reading_level_before
    strategy_applied := "revert_to_original"
    should_update := true
    repaired_text := repaired_text }

/-- Specification-side selector for the repair priority order described in
the spec: the first applicable strategy among `simplify_language`,
`remove_tooltips`, `manual_review`. -/
def specFirstApplicableStrategy (strategies : List String) : Option String :=
  if "simplify_language" ∈ strategies then some "simplify_language"
  else if "remove_tooltips" ∈ strategies then some "remove_tooltips"
  else if "manual_review" ∈ strategies then some "manual_review"
  else none

/-- Grade level of a text as computed throughout the repair scripts:
`analyze_text_complexity` followed by `calculate_flesch_kincaid_grade`. -/
def gradeLevelOf (text : Text) : ℚ :=
  let counts := analyze_text_complexity text
  calculate_flesch_kincaid_grade text counts.1 counts.2.1 counts.2.2

/-- Glossary for the longest-match scenario of the specification. -/
def c4Glossary : List GlossaryEntry :=
  [ { clinical_term := "cortex".toList
      user_friendly_term := some ("brain outer layer".toList)
      explanation := none
      category := some ("neuroscience".toList) },
    { clinical_term := "prefrontal cortex".toList
      user_friendly_term := some ("front thinking part".toList)
      explanation := none
      category := some ("neuroscience".toList) } ]

def c4Text : Text := "the prefrontal cortex activates".toList

/-- Single-entry glossary used for the injection scenarios. -/
def amygdalaGlossary : List GlossaryEntry :=
  [ { clinical_term := "amygdala".toList
      user_friendly_term := some ("your brains alarm system".toList)
      explanation := none
      category := some ("neuroscience".toList) } ]

/-- Text containing the same glossary term twice. -/
def c10Text : Text := "The amygdala helps and amygdala reacts.".toList

/-- Text of the specification's concrete injection scenario. -/
def c1WitnessText : Text := "The amygdala reacts.".toList

/-- Text that already looks like tooltip markup before any injection. -/
def c1BadText : Text := ['{', '{', 'x', '|', '|', 'y', '}', '}']

/-- Degraded protocol whose only failed diagnosis check is the
long-definition check: one tooltip whose definition has 16 one-letter
words (word count 16 > 15, grade level 2.45 ≤ 8, density 1 < 3). -/
def c6Protocol : Protocol :=
  { id := "p6"
    chunk_text := "Go here now.".toList
    simplified_text := "Go {{x||a b c d e f g h i j k l m n o p}} now.".toList
    chunk_summary := "s"
    reading_level_before := 3
    reading_level_after := 5 }

/-- Degraded protocol and diagnosis used to instantiate the repair
theorems. -/
def c2Protocol : Protocol :=
  { id := "p2"
    chunk_text := "The cat sat.".toList
    simplified_text := "The {{cat||a small pet}} sat.".toList
    chunk_summary := "s"
    reading_level_before := 3
    reading_level_after := 5 }

def c2Diagnosis : Diagnosis :=
  { protocol_id := "p2"
    chunk_summary := "s"
    reading_level_before := 3
    reading_level_after := 5
    degradation := 2
    tooltip_count := 1
    long_tooltips := 0
    complex_tooltips := 0
    max_tooltips_per_sentence := 1
    primary_causes := ["Unknown cause - requires manual review"]
    repair_strategies := ["manual_review"]
    tooltip_details := []
    high_density_sentences := [] }

def c9Text : Text := "This is a simple test. The text is easy to read.".toList

def c7FailingText : Text := "She runs fast, i.e. quickly, every day.".toList

def c7BaselineText : Text := "She runs fast, quickly, every day.".toList

section SortLemmas

variable {α : Type} {r : α → α → Bool}

theorem mem_insertLe {a x : α} : ∀ {l : List α}, x ∈ insertLe r a l ↔ x = a ∨ x ∈ l := by
  intro l
  induction l with
  | nil => simp [insertLe]
  | cons b t ih =>
    rw [insertLe]
    split
    · simp only [List.mem_cons, ih]
      try tauto
    · simp only [List.mem_cons]
      try tauto

theorem insertLe_perm (a : α) : ∀ (l : List α), List.Perm (insertLe r a l) (a :: l) := by
  intro l
  induction l with
  | nil => simp [insertLe]
  | cons b t ih =>
    rw [insertLe]
    split
    · exact (ih.cons b).trans (List.Perm.swap a b t)
    · exact List.Perm.refl _

theorem sortByAux_perm : ∀ (l acc : List α), List.Perm (sortByAux r l acc) (l ++ acc) := by
  intro l
  induction l with
  | nil => intro acc; simp [sortByAux]
  | cons a rest ih =>
    intro acc
    have h1 : List.Perm (sortByAux r rest (insertLe r a acc)) (rest ++ insertLe r a acc) :=
      ih _
    have h2 : List.Perm (rest ++ insertLe r a acc) (rest ++ (a :: acc)) :=
      List.Perm.append_left rest (insertLe_perm a acc)
    have h3 : List.Perm (rest ++ a :: acc) (a :: (rest ++ acc)) := List.perm_middle
    exact ((h1.trans h2).trans h3)

theorem sortBy_perm (l : List α) : List.Perm (sortBy r l) l := by
  simpa [sortBy] using sortByAux_perm (r := r) l []

theorem mem_sortBy {x : α} {l : List α} : x ∈ sortBy r l ↔ x ∈ l :=
  (sortBy_perm l).mem_iff

theorem length_sortBy (l : List α) : (sortBy r l).length = l.length :=
  (sortBy_perm l).length_eq

theorem pairwise_insertLe
    (htot : ∀ a b : α, r a b = true ∨ r b a = true)
    (htrans : ∀ a b c : α, r a b = true → r b c = true → r a c = true)
    {a : α} : ∀ {l : List α}, l.Pairwise (fun x y => r x y = true) →
      (insertLe r a l).Pairwise (fun x y => r x y = true) := by
  intro l
  induction l with
  | nil => simp [insertLe]
  | cons b t ih =>
    intro hp
    rcases List.pairwise_cons.mp hp with ⟨hb, ht⟩
    rw [insertLe]
    split
    · rename_i h
      refine List.pairwise_cons.mpr ⟨?_, ih ht⟩
      intro x hx
      rcases mem_insertLe.mp hx with rfl | hx
      · exact h
      · exact hb x hx
    · rename_i h
      have hab : r a b = true := (htot a b).resolve_right (fun hba => h hba)
      refine List.pairwise_cons.mpr ⟨?_, hp⟩
      intro x hx
      rcases List.mem_cons.mp hx with rfl | hx
      · exact hab
      · exact htrans a b x hab (hb x hx)

theorem pairwise_sortByAux
    (htot : ∀ a b : α, r a b = true ∨ r b a = true)
    (htrans : ∀ a b c : α, r a b = true → r b c = true → r a c = true) :
    ∀ (l acc : List α), acc.Pairwise (fun x y => r x y = true) →
      (sortByAux r l acc).Pairwise (fun x y => r x y = true) := by
  intro l
  induction l with
  | nil => intro acc h; exact h
  | cons a rest ih =>
    intro acc h
    exact ih _ (pairwise_insertLe htot htrans h)

theorem pairwise_sortBy
    (htot : ∀ a b : α, r a b = true ∨ r b a = true)
    (htrans : ∀ a b c : α, r a b = true → r b c = true → r a c = true)
    (l : List α) : (sortBy r l).Pairwise (fun x y => r x y = true) :=
  pairwise_sortByAux htot htrans l [] List.Pairwise.nil

end SortLemmas

section SweepLemmas

theorem sweepAux_subset : ∀ {l : List TermMatch} {seen : List (Nat × Nat)}
    {m : TermMatch}, m ∈ sweepAux l seen → m ∈ l := by
  intro l
  induction l with
  | nil => intro seen m h; simp [sweepAux] at h
  | cons t rest ih =>
    intro seen m h
    rw [sweepAux] at h
    split at h
    · exact List.mem_cons_of_mem _ (ih h)
    · rcases List.mem_cons.mp h with rfl | h
      · exact List.mem_cons_self _ _
      · exact List.mem_cons_of_mem _ (ih h)

theorem sweepAux_no_hit : ∀ {l : List TermMatch} {seen : List (Nat × Nat)}
    {m : TermMatch}, m ∈ sweepAux l seen → ∀ r ∈ seen,
      overlapHit r m.position m.end_position = false := by
  intro l
  induction l with
  | nil => intro seen m h; simp [sweepAux] at h
  | cons t rest ih =>
    intro seen m h r hr
    rw [sweepAux] at h
    split at h
    · exact ih h r hr
    · rename_i hnone
      rcases List.mem_cons.mp h with rfl | h
      · have h0 : (seen.any fun rr => overlapHit rr m.position m.end_position) = false := by
          simpa using hnone
        rw [List.any_eq_false] at h0
        simpa using h0 r hr
      · exact ih h r (by simp [hr])

theorem sweepAux_pairwise : ∀ (l : List TermMatch) (seen : List (Nat × Nat)),
    l.Pairwise (fun a b => a.position ≤ b.position) →
    (∀ m ∈ l, ∀ r ∈ seen, r.1 ≤ m.position) →
    (sweepAux l seen).Pairwise (fun a b => a.end_position ≤ b.position) := by
  intro l
  induction l with
  | nil => intro seen _ _; simp [sweepAux]
  | cons t rest ih =>
    intro seen hsort hseen
    rcases List.pairwise_cons.mp hsort with ⟨hhead, htail⟩
    rw [sweepAux]
    split
    · exact ih seen htail (fun m hm r hr => hseen m (List.mem_cons_of_mem _ hm) r hr)
    · refine List.pairwise_cons.mpr ⟨?_, ?_⟩
      · intro b hb
        have hmem : b ∈ rest := sweepAux_subset hb
        have hpos : t.position ≤ b.position := hhead b hmem
        have hno := sweepAux_no_hit hb (t.position, t.end_position) (by simp)
        by_contra hlt
        push_neg at hlt
        have hhit : overlapHit (t.position, t.end_position) b.position b.end_position = true := by
          simp only [overlapHit, Bool.or_eq_true, Bool.and_eq_true, decide_eq_true_eq]
          exact Or.inl ⟨hpos, hlt⟩
        rw [hhit] at hno
        exact absurd hno (by simp)
      · refine ih _ htail ?_
        intro m hm r hr
        rcases List.mem_append.mp hr with hr | hr
        · exact hseen m (List.mem_cons_of_mem _ hm) r hr
        · have heq : r = (t.position, t.end_position) := by simpa using hr
          subst heq
          exact hhead m hm

end SweepLemmas

/-- C2: for every degraded document (grade level after injection above the
grade level before), `repair_protocol` marks a repaired text for
persistence (`should_update`) only if the repaired grade level is strictly
below the post-injection grade level, and `repair_protocol_revert` always
produces the original text as repaired text, whose grade level is the
grade level of the original text. -/
theorem C2_monotonic_repair (p : Protocol) (d : Diagnosis)
    (_hdeg : d.reading_level_before < d.reading_level_after) :
    ((repair_protocol p d).should_update = true →
      (repair_protocol p d).reading_level_repaired < d.reading_level_after) ∧
    (repair_protocol_revert p d).repaired_text = p.chunk_text ∧
    (repair_protocol_revert p d).reading_level_repaired = gradeLevelOf p.chunk_text := by
  refine ⟨?_, rfl, rfl⟩
  intro h
  have h' : ((decide ((d.reading_level_after - (repair_protocol p d).reading_level_repaired) > 1/10)) &&
      (decide ((repair_protocol p d).reading_level_repaired < d.reading_level_after))) = true := h
  exact of_decide_eq_true ((Bool.and_eq_true _ _).mp h').2

/-- Witness for C2 at a concrete degraded protocol and diagnosis. -/
theorem C2_monotonic_repair_witness :
    c2Diagnosis.reading_level_before < c2Diagnosis.reading_level_after ∧
    (((repair_protocol c2Protocol c2Diagnosis).should_update = true →
      (repair_protocol c2Protocol c2Diagnosis).reading_level_repaired <
        c2Diagnosis.reading_level_after) ∧
    (repair_protocol_revert c2Protocol c2Diagnosis).repaired_text = c2Protocol.chunk_text ∧
    (repair_protocol_revert c2Protocol c2Diagnosis).reading_level_repaired =
      gradeLevelOf c2Protocol.chunk_text) :=
  ⟨by decide, C2_monotonic_repair c2Protocol c2Diagnosis (by decide)⟩

/-- C3: no two matches retained by `find_technical_terms` share any
character offset: the retained list is pairwise disjoint on
`[position, end_position)` ranges (stated for every ordered pair of the
returned list; the relation is symmetric in the two matches). -/
theorem C3_matcher_non_overlap (T : Text) (G : List GlossaryEntry) :
    (find_technical_terms T G).Pairwise (fun a b => ∀ i : Nat,
      ¬(a.position ≤ i ∧ i < a.end_position ∧ b.position ≤ i ∧ i < b.end_position)) := by
  have htot : ∀ a b : TermMatch,
      (decide (a.position ≤ b.position)) = true ∨ (decide (b.position ≤ a.position)) = true := by
    intro a b
    simpa using Nat.le_total a.position b.position
  have htrans : ∀ a b c : TermMatch, (decide (a.position ≤ b.position)) = true →
      (decide (b.position ≤ c.position)) = true → (decide (a.position ≤ c.position)) = true := by
    intro a b c h1 h2
    simp only [decide_eq_true_eq] at h1 h2 ⊢
    omega
  have h1 := (pairwise_sortBy htot htrans
    ((sortBy (fun a b => decide (b.clinical_term.length ≤ a.clinical_term.length)) G).flatMap
      (fun entry => (findIter T (toLowerText entry.clinical_term)).map (fun pq =>
        { term := pySlice T pq.1 pq.2
          position := pq.1
          end_position := pq.2
          definition := entryDefinition entry
          category := entryCategory entry })))).imp
    (fun h => of_decide_eq_true h)
  have h2 := sweepAux_pairwise _ [] h1 (by simp)
  refine List.Pairwise.imp ?_ h2
  intro a b h i hi
  omega

/-- C4: with a glossary containing both `cortex` and `prefrontal cortex`
and the text `the prefrontal cortex activates`, the matcher returns a
match for `prefrontal cortex` and no match for the embedded `cortex`. -/
theorem C4_longest_match_precedence :
    (∃ m ∈ find_technical_terms c4Text c4Glossary,
      m.term = ("prefrontal cortex".toList) ∧ m.position = 4 ∧ m.end_position = 21) ∧
    (∀ m ∈ find_technical_terms c4Text c4Glossary, m.term ≠ ("cortex".toList)) := by
  decide

/-- C5: the injector selects at most `max_tooltips` matches for rewriting,
and with zero matches it returns the input text unchanged together with an
empty term mapping. -/
theorem C5_bounded_injection (T : Text) (G : List GlossaryEntry) (n : Nat) :
    (injectSelected T G n).length ≤ n ∧
    (find_technical_terms T G = [] → inject_tooltips T G n = (T, [])) := by
  constructor
  · have h1 : (injectSelected T G n).length =
        (((sortBy (fun a b => decide (priorityScore b ≤ priorityScore a))
          (find_technical_terms T G)).take n)).length := length_sortBy _
    rw [h1, List.length_take]
    exact min_le_left _ _
  · intro h
    simp [inject_tooltips, h]

/-- Witness for C5 at a concrete text with no matches. -/
theorem C5_bounded_injection_witness :
    (injectSelected c1BadText [] 5).length ≤ 5 ∧
    (find_technical_terms c1BadText [] = [] ∧
      inject_tooltips c1BadText [] 5 = (c1BadText, [])) := by
  have h := C5_bounded_injection c1BadText [] 5
  exact ⟨h.1, by decide, h.2 (by decide)⟩

/-- C7 (divergence witness): the abbreviation protection rewrites `i.e.`
to `i.e<PERIOD>`, whose internal dot still splits, so a sentence
containing `i.e.` is counted as two sentences while the same sentence
without it is counted as one.  This contradicts the protection the
function's own comment and the specification describe. -/
theorem C7_abbreviation_split :
    count_sentences c7FailingText = 2 ∧ count_sentences c7BaselineText = 1 := by
  decide

/-- C8 (counterexample): for an input whose lower-cased alphabetic-only
form is empty, `count_syllables` returns 0, not the floor-at-1 value the
claim states for every word. -/
theorem C8_counterexample :
    count_syllables ("123".toList) = 0 ∧ specSyllables ("123".toList) = 1 ∧
    count_syllables ("123".toList) ≠ specSyllables ("123".toList) := by
  decide

/-- C9 (counterexample): the concrete scenario text has 11 words, not the
10 the claim states. -/
theorem C9_counterexample : (analyze_text_complexity c9Text).1 ≠ 10 := by
  decide

unseal Rat.mul Rat.add Rat.sub Rat.inv in
/-- C9 (amended): the concrete scenario text has 11 words, 2 sentences
(and 12 syllables), and its Flesch-Kincaid grade level is at most 2.0. -/
theorem C9_concrete_scenario :
    analyze_text_complexity c9Text = (11, 2, 12) ∧ gradeLevelOf c9Text ≤ 2 := by
  decide

unseal Rat.mul Rat.add Rat.sub Rat.inv in
/-- C10: when two selected matches have the identical matched string, the
`terms_used` dict keeps a single entry, so the reported `tooltips_added`
(the dict size) is strictly smaller than the number of markup spans
inserted. -/
theorem C10_duplicate_terms_undercount :
    (injectSelected c10Text amygdalaGlossary 5).length = 2 ∧
    ((injectSelected c10Text amygdalaGlossary 5).map (fun m => m.term) =
      ["amygdala".toList, "amygdala".toList]) ∧
    (inject_tooltips c10Text amygdalaGlossary 5).2 =
      [("amygdala".toList, "your brains alarm system".toList)] ∧
    tooltips_added c10Text amygdalaGlossary 5 = 1 ∧
    tooltips_added c10Text amygdalaGlossary 5 <
      (injectSelected c10Text amygdalaGlossary 5).length := by
  decide

unseal Rat.mul Rat.add Rat.sub Rat.inv in
/-- C6 (counterexample): a degraded protocol whose only failed check is
the long-definition check gets the single candidate strategy
`shorten_definitions`, and `repair_protocol` then applies no strategy at
all (rather than exactly one): `strategy_applied` is `none` and the text
is left unchanged. -/
theorem C6_counterexample :
    c6Protocol.reading_level_before < c6Protocol.reading_level_after ∧
    (diagnose_degradation c6Protocol).repair_strategies = ["shorten_definitions"] ∧
    (repair_protocol c6Protocol (diagnose_degradation c6Protocol)).strategy_applied = none ∧
    (repair_protocol c6Protocol (diagnose_degradation c6Protocol)).repaired_text =
      c6Protocol.simplified_text := by
  decide

theorem filter_dropWhile_of_disjoint {p q : Char → Bool}
    (hpq : ∀ c, q c = true → p c = false) :
    ∀ s : Text, (s.dropWhile q).filter p = s.filter p := by
  intro s
  induction s with
  | nil => rfl
  | cons c rest ih =>
    by_cases h : q c = true
    · rw [List.dropWhile_cons_of_pos h, ih, List.filter_cons_of_neg]
      simp [hpq c h]
    · rw [List.dropWhile_cons_of_neg h]

theorem filter_pyStrip_of_disjoint {p : Char → Bool}
    (hp : ∀ c, isPyWs c = true → p c = false) (s : Text) :
    (pyStrip s).filter p = s.filter p := by
  rw [pyStrip, List.filter_reverse, filter_dropWhile_of_disjoint hp,
    List.filter_reverse, List.reverse_reverse, filter_dropWhile_of_disjoint hp]

theorem isLowerAZ_of_ws : ∀ c, isPyWs c = true → isLowerAZ c = false := by
  intro c h
  simp only [isPyWs, Bool.or_eq_true, decide_eq_true_eq] at h
  rcases h with ((((h | h) | h) | h) | h) | h <;> subst h <;> decide

/-- C8 (amended): for every word whose lower-cased alphabetic-only form is
non-empty, `count_syllables` computes exactly the claimed value: the
number of maximal vowel runs of that form, minus one for a trailing `e`
when more than one run exists, floored at 1.  (For an empty form the
source returns 0 instead of the floor value 1.) -/
theorem C8_syllable_rule (w : Text)
    (h : (toLowerText w).filter isLowerAZ ≠ []) :
    count_syllables w = specSyllables w := by
  simp only [count_syllables, specSyllables, filter_pyStrip_of_disjoint isLowerAZ_of_ws]
  rw [if_neg (by simpa using h)]

/-- Witness for C8 at a concrete word. -/
theorem C8_syllable_rule_witness :
    (toLowerText ("hello".toList)).filter isLowerAZ ≠ [] ∧
    count_syllables ("hello".toList) = specSyllables ("hello".toList) :=
  ⟨by decide, C8_syllable_rule ("hello".toList) (by decide)⟩

theorem filter_length_pos_iff {α : Type} (p : α → Bool) (l : List α) :
    0 < (l.filter p).length ↔ ∃ a ∈ l, p a = true := by
  induction l with
  | nil => simp
  | cons a t ih =>
    by_cases h : p a = true <;> simp [List.filter_cons, h, ih]

theorem repair_protocol_strategy (p : Protocol) (d : Diagnosis) :
    (repair_protocol p d).strategy_applied = specFirstApplicableStrategy d.repair_strategies ∧
    (repair_protocol p d).repaired_text =
      (match specFirstApplicableStrategy d.repair_strategies with
        | some s =>
          if s = "simplify_language" then extract_and_simplify_tooltips p.simplified_text
          else if s = "remove_tooltips" then (remove_complex_tooltips p.simplified_text 8).1
          else p.simplified_text
        | none => p.simplified_text) := by
  unfold repair_protocol specFirstApplicableStrategy
  by_cases h1 : "simplify_language" ∈ d.repair_strategies
  · simp [h1]
  · by_cases h2 : "remove_tooltips" ∈ d.repair_strategies
    · simp [h1, h2]
    · by_cases h3 : "manual_review" ∈ d.repair_strategies
      · simp [h1, h2, h3]
      · simp [h1, h2, h3]

theorem diagnose_strategy_iffs (p : Protocol) :
    ("shorten_definitions" ∈ (diagnose_degradation p).repair_strategies ↔
      ∃ t ∈ extract_tooltips_from_text p.simplified_text, t.word_count > 15) ∧
    ("simplify_language" ∈ (diagnose_degradation p).repair_strategies ↔
      ∃ t ∈ extract_tooltips_from_text p.simplified_text, t.reading_level > 8) ∧
    ("remove_tooltips" ∈ (diagnose_degradation p).repair_strategies ↔
      3 ≤ (analyze_sentence_tooltip_density p.simplified_text).max_tooltips_per_sentence) ∧
    ("manual_review" ∈ (diagnose_degradation p).repair_strategies ↔
      ((¬∃ t ∈ extract_tooltips_from_text p.simplified_text, t.word_count > 15) ∧
        (¬∃ t ∈ extract_tooltips_from_text p.simplified_text, t.reading_level > 8) ∧
        ¬(3 ≤ (analyze_sentence_tooltip_density p.simplified_text).max_tooltips_per_sentence))) := by
  have hL := filter_length_pos_iff
    (fun t : TooltipInfo => decide (t.word_count > 15))
    (extract_tooltips_from_text p.simplified_text)
  have hC := filter_length_pos_iff
    (fun t : TooltipInfo => decide (t.reading_level > 8))
    (extract_tooltips_from_text p.simplified_text)
  simp only [decide_eq_true_eq] at hL hC
  unfold diagnose_degradation
  by_cases h1 : 0 < ((extract_tooltips_from_text p.simplified_text).filter
      (fun t => decide (t.word_count > 15))).length
  · by_cases h2 : 0 < ((extract_tooltips_from_text p.simplified_text).filter
        (fun t => decide (t.reading_level > 8))).length
    · by_cases h3 :
          3 ≤ (analyze_sentence_tooltip_density p.simplified_text).max_tooltips_per_sentence
      · simp [h1, h2, h3, ← hL, ← hC]
      · simp [h1, h2, h3, ← hL, ← hC]
    · by_cases h3 :
          3 ≤ (analyze_sentence_tooltip_density p.simplified_text).max_tooltips_per_sentence
      · simp [h1, h2, h3, ← hL, ← hC]
      · simp [h1, h2, h3, ← hL, ← hC]
  · by_cases h2 : 0 < ((extract_tooltips_from_text p.simplified_text).filter
        (fun t => decide (t.reading_level > 8))).length
    · by_cases h3 :
          3 ≤ (analyze_sentence_tooltip_density p.simplified_text).max_tooltips_per_sentence
      · simp [h1, h2, h3, ← hL, ← hC]
      · simp [h1, h2, h3, ← hL, ← hC]
    · by_cases h3 :
          3 ≤ (analyze_sentence_tooltip_density p.simplified_text).max_tooltips_per_sentence
      · simp [h1, h2, h3, ← hL, ← hC]
      · simp [h1, h2, h3, ← hL, ← hC]

/-- C6 (amended): for every degraded document, the diagnosis maps its
three checks to candidate strategies (long definitions, over 15 words, to
`shorten_definitions`; complex definitions, grade level above 8.0, to
`simplify_language`; a sentence with 3 or more tooltips to
`remove_tooltips`; `manual_review` exactly when no check fires), and the
repair step applies at most one strategy, the first applicable in the
priority order `simplify_language`, `remove_tooltips`, `manual_review`,
never combining transformations; when the only candidate is
`shorten_definitions` (which `repair_protocol` does not implement) it
applies no strategy and leaves the text unchanged. -/
theorem C6_first_applicable_strategy (p : Protocol)
    (_hdeg : p.reading_level_before < p.reading_level_after) :
    ("shorten_definitions" ∈ (diagnose_degradation p).repair_strategies ↔
      ∃ t ∈ extract_tooltips_from_text p.simplified_text, t.word_count > 15) ∧
    ("simplify_language" ∈ (diagnose_degradation p).repair_strategies ↔
      ∃ t ∈ extract_tooltips_from_text p.simplified_text, t.reading_level > 8) ∧
    ("remove_tooltips" ∈ (diagnose_degradation p).repair_strategies ↔
      3 ≤ (analyze_sentence_tooltip_density p.simplified_text).max_tooltips_per_sentence) ∧
    ("manual_review" ∈ (diagnose_degradation p).repair_strategies ↔
      ((¬∃ t ∈ extract_tooltips_from_text p.simplified_text, t.word_count > 15) ∧
        (¬∃ t ∈ extract_tooltips_from_text p.simplified_text, t.reading_level > 8) ∧
        ¬(3 ≤ (analyze_sentence_tooltip_density p.simplified_text).max_tooltips_per_sentence))) ∧
    ((repair_protocol p (diagnose_degradation p)).strategy_applied =
      specFirstApplicableStrategy (diagnose_degradation p).repair_strategies) ∧
    ((repair_protocol p (diagnose_degradation p)).strategy_applied = some "simplify_language" →
      (repair_protocol p (diagnose_degradation p)).repaired_text =
        extract_and_simplify_tooltips p.simplified_text) ∧
    ((repair_protocol p (diagnose_degradation p)).strategy_applied = some "remove_tooltips" →
      (repair_protocol p (diagnose_degradation p)).repaired_text =
        (remove_complex_tooltips p.simplified_text 8).1) ∧
    (((repair_protocol p (diagnose_degradation p)).strategy_applied = some "manual_review" ∨
      (repair_protocol p (diagnose_degradation p)).strategy_applied = none) →
      (repair_protocol p (diagnose_degradation p)).repaired_text = p.simplified_text) := by
  obtain ⟨hA, hB⟩ := repair_protocol_strategy p (diagnose_degradation p)
  obtain ⟨h1, h2, h3, h4⟩ := diagnose_strategy_iffs p
  refine ⟨h1, h2, h3, h4, hA, ?_, ?_, ?_⟩
  · intro hs
    rw [hB, hA.symm.trans hs]
    simp
  · intro hs
    rw [hB, hA.symm.trans hs]
    simp
  · intro hs
    rcases hs with hs | hs
    · rw [hB, hA.symm.trans hs]
      simp
    · rw [hB, hA.symm.trans hs]

/-- Witness for C6 at a concrete degraded protocol. -/
theorem C6_first_applicable_strategy_witness :
    c6Protocol.reading_level_before < c6Protocol.reading_level_after ∧
    (repair_protocol c6Protocol (diagnose_degradation c6Protocol)).strategy_applied =
      specFirstApplicableStrategy (diagnose_degradation c6Protocol).repair_strategies :=
  ⟨by decide, (C6_first_applicable_strategy c6Protocol (by decide)).2.2.2.2.1⟩

section StripLemmas

theorem takeWhile_append_stop {p : Char → Bool} :
    ∀ (w : Text) (x : Char) (y : Text), (∀ c ∈ w, p c = true) → p x = false →
      (w ++ x :: y).takeWhile p = w := by
  intro w
  induction w with
  | nil =>
    intro x y _ hx
    simpa [List.takeWhile_cons] using hx
  | cons c w' ih =>
    intro x y hw hx
    have hc : p c = true := hw c (by simp)
    simp only [List.cons_append, List.takeWhile_cons, hc, if_true]
    rw [ih x y (fun d hd => hw d (by simp [hd])) hx]

theorem dropWhile_append_stop {p : Char → Bool} :
    ∀ (w : Text) (x : Char) (y : Text), (∀ c ∈ w, p c = true) → p x = false →
      (w ++ x :: y).dropWhile p = x :: y := by
  intro w
  induction w with
  | nil =>
    intro x y _ hx
    simp [List.dropWhile_cons, hx]
  | cons c w' ih =>
    intro x y hw hx
    have hc : p c = true := hw c (by simp)
    simp only [List.cons_append, List.dropWhile_cons, hc, if_true]
    rw [ih x y (fun d hd => hw d (by simp [hd])) hx]

theorem stripMatch_none_of_head {c : Char} (hc : c ≠ '{') :
    ∀ s : Text, stripMatch (c :: s) = none := by
  intro s
  cases s with
  | nil => rfl
  | cons c2 rest =>
    rw [stripMatch]
    exact if_neg (fun h => hc h.1)

theorem stripMatch_markup {w d z : Text}
    (hw : w ≠ []) (hwp : ∀ c ∈ w, c ≠ '|') (hd : ∀ c ∈ d, c ≠ '}') :
    stripMatch ('{' :: '{' :: (w ++ '|' :: '|' :: (d ++ '}' :: '}' :: z))) = some (w, z) := by
  rw [stripMatch, if_pos ⟨rfl, rfl⟩, stripBody]
  have ht : (w ++ '|' :: '|' :: (d ++ '}' :: '}' :: z)).takeWhile (fun c => c != '|') = w :=
    takeWhile_append_stop w _ _ (fun c hc => by simpa using hwp c hc) (by decide)
  have hdw : (w ++ '|' :: '|' :: (d ++ '}' :: '}' :: z)).dropWhile (fun c => c != '|') =
      '|' :: ('|' :: (d ++ '}' :: '}' :: z)) :=
    dropWhile_append_stop w _ _ (fun c hc => by simpa using hwp c hc) (by decide)
  rw [ht, hdw, stripBodyPipe]
  have hne : w.isEmpty = false := by
    cases w with
    | nil => exact absurd rfl hw
    | cons a b => rfl
  simp only [hne, Bool.false_eq_true, if_false]
  have ht2 : ('|' :: (d ++ '}' :: '}' :: z)).takeWhile (fun c => c != '}') = '|' :: d := by
    rw [List.takeWhile_cons]
    simp only [show (('|' : Char) != '}') = true from by decide, if_true]
    rw [takeWhile_append_stop d _ _ (fun c hc => by simpa using hd c hc) (by decide)]
  have hdw2 : ('|' :: (d ++ '}' :: '}' :: z)).dropWhile (fun c => c != '}') =
      '}' :: '}' :: z := by
    rw [List.dropWhile_cons]
    simp only [show (('|' : Char) != '}') = true from by decide, if_true]
    exact dropWhile_append_stop d _ _ (fun c hc => by simpa using hd c hc) (by decide)
  rw [ht2, hdw2, stripBodyClose]
  simp

theorem stripBodyClose_shrink {t d x t2 r : Text}
    (h : stripBodyClose t d x = some (t2, r)) : r.length + 2 ≤ x.length := by
  match x with
  | [] => simp [stripBodyClose] at h
  | [e1] => simp [stripBodyClose] at h
  | e1 :: e2 :: rest3 =>
    rw [stripBodyClose] at h
    split at h
    · exact absurd h (by simp)
    · split at h
      · simp only [Option.some.injEq, Prod.mk.injEq] at h
        rcases h with ⟨-, rfl⟩
        simp
      · exact absurd h (by simp)

theorem stripBody_shrink {rest t r : Text} (h : stripBody rest = some (t, r)) :
    r.length ≤ rest.length := by
  rw [stripBody] at h
  cases hdw : rest.dropWhile (fun c => c != '|') with
  | nil =>
    rw [hdw] at h
    simp [stripBodyPipe] at h
  | cons x rest2 =>
    rw [hdw] at h
    rw [stripBodyPipe] at h
    split at h
    · exact absurd h (by simp)
    · have h2 := stripBodyClose_shrink h
      have h3 : (rest2.dropWhile (fun c => c != '}')).length ≤ rest2.length :=
        (List.dropWhile_sublist _).length_le
      have h4 : (rest.dropWhile (fun c => c != '|')).length ≤ rest.length :=
        (List.dropWhile_sublist _).length_le
      rw [hdw] at h4
      simp only [List.length_cons] at h4
      omega

theorem stripMatch_shrink {s t r : Text} (h : stripMatch s = some (t, r)) :
    r.length < s.length := by
  cases s with
  | nil => exact absurd h (by simp [stripMatch])
  | cons c1 s1 =>
    cases s1 with
    | nil => exact absurd h (by simp [stripMatch])
    | cons c2 rest =>
      rw [stripMatch] at h
      split at h
      · have := stripBody_shrink h
        simp only [List.length_cons]
        omega
      · exact absurd h (by simp)

theorem stripAux_congr : ∀ (a : Nat) {s : Text} {b : Nat},
    s.length ≤ a → s.length ≤ b → stripTooltipsAux a s = stripTooltipsAux b s := by
  intro f1
  induction f1 with
  | zero =>
    intro s f2 h1 _
    have : s = [] := List.length_eq_zero.mp (Nat.le_zero.mp h1)
    subst this
    cases f2 <;> rfl
  | succ f1' ih =>
    intro s f2 h1 h2
    cases s with
    | nil => cases f2 <;> rfl
    | cons c rest =>
      cases f2 with
      | zero => simp at h2
      | succ f2' =>
        simp only [List.length_cons] at h1 h2
        cases hm : stripMatch (c :: rest) with
        | none =>
          simp only [stripTooltipsAux, hm]
          rw [ih (s := rest) (b := f2') (by omega) (by omega)]
        | some tr =>
          obtain ⟨t0, r0⟩ := tr
          have hlt := stripMatch_shrink hm
          simp only [List.length_cons] at hlt
          simp only [stripTooltipsAux, hm]
          rw [ih (s := r0) (b := f2') (by omega) (by omega)]

theorem strip_cons_not_lbrace {c : Char} (hc : c ≠ '{') (s : Text) :
    stripTooltips (c :: s) = c :: stripTooltips s := by
  rw [stripTooltips, List.length_cons, stripTooltipsAux, stripMatch_none_of_head hc]
  rfl

theorem strip_match_step {s t r : Text} (h : stripMatch s = some (t, r)) :
    stripTooltips s = t ++ stripTooltips r := by
  cases s with
  | nil => exact absurd h (by simp [stripMatch])
  | cons c rest =>
    rw [stripTooltips, List.length_cons]
    simp only [stripTooltipsAux, h]
    have hlt := stripMatch_shrink h
    simp only [List.length_cons] at hlt
    rw [stripAux_congr rest.length (s := r) (b := r.length) (by omega) (le_refl _)]
    rfl

theorem strip_append_braceFree :
    ∀ (B : Text), (∀ c ∈ B, c ≠ '{') → ∀ S : Text,
      stripTooltips (B ++ S) = B ++ stripTooltips S := by
  intro B
  induction B with
  | nil => intro _ S; rfl
  | cons c B' ih =>
    intro hB S
    rw [List.cons_append, strip_cons_not_lbrace (hB c (by simp)),
      ih (fun d hd => hB d (by simp [hd])) S, List.cons_append]

theorem strip_markup_head {w d : Text} (hw : w ≠ [])
    (hwp : ∀ c ∈ w, c ≠ '|') (hd : ∀ c ∈ d, c ≠ '}') (Z : Text) :
    stripTooltips (tooltipMarkup w d ++ Z) = w ++ stripTooltips Z := by
  have hshape : tooltipMarkup w d ++ Z =
      '{' :: '{' :: (w ++ '|' :: '|' :: (d ++ '}' :: '}' :: Z)) := by
    simp [tooltipMarkup]
  rw [hshape, strip_match_step (stripMatch_markup hw hwp hd)]

end StripLemmas

section RenderLemmas

theorem tooltipMarkup_length (w d : Text) :
    (tooltipMarkup w d).length = w.length + d.length + 6 := by
  simp [tooltipMarkup]
  omega

theorem pySlice_length {T : Text} {p q : Nat} (_h1 : p ≤ q) (h2 : q ≤ T.length) :
    (pySlice T p q).length = q - p := by
  simp [pySlice, List.length_take, List.length_drop]
  omega

theorem pySlice_subset {T : Text} {p q : Nat} {c : Char} (hc : c ∈ pySlice T p q) : c ∈ T :=
  List.drop_subset _ _ (List.take_subset _ _ hc)

theorem pySlice_take {T : Text} {p p' q' : Nat} (h : q' ≤ p) :
    pySlice (T.take p) p' q' = pySlice T p' q' := by
  rw [pySlice, pySlice, List.drop_take, List.take_take, Nat.min_eq_left (by omega)]

theorem renderFold_append (l : List TermMatch) :
    ∀ (A S : Text), (∀ m ∈ l, m.position < m.end_position ∧ m.end_position ≤ A.length ∧
      m.term.length = m.end_position - m.position) →
    List.foldl renderStep (A ++ S) l = List.foldl renderStep A l ++ S := by
  induction l with
  | nil => intro A S _; rfl
  | cons s rest ih =>
    intro A S hm
    obtain ⟨hp, hq, hlen⟩ := hm s (by simp)
    have hstep : renderStep (A ++ S) s = renderStep A s ++ S := by
      rw [renderStep, renderStep, List.take_append_eq_append_take,
        List.drop_append_eq_append_drop]
      rw [show s.position - A.length = 0 by omega, show s.end_position - A.length = 0 by omega]
      simp
    rw [List.foldl_cons, List.foldl_cons, hstep]
    refine ih (renderStep A s) S ?_
    intro m hmm
    obtain ⟨h1, h2, h3⟩ := hm m (by simp [hmm])
    refine ⟨h1, ?_, h3⟩
    have hlenA : (renderStep A s).length =
        s.position + ((tooltipMarkup s.term s.definition).length + (A.length - s.end_position)) := by
      rw [renderStep]
      simp [List.length_take, List.length_drop]
      omega
    rw [hlenA, tooltipMarkup_length]
    omega

theorem strip_renderFold (l : List TermMatch) :
    ∀ (T S : Text),
      (∀ c ∈ T, c ≠ '{' ∧ c ≠ '}' ∧ c ≠ '|') →
      l.Pairwise (fun a b => b.end_position ≤ a.position) →
      (∀ m ∈ l, m.position < m.end_position ∧ m.end_position ≤ T.length ∧
        m.term = pySlice T m.position m.end_position ∧ ∀ c ∈ m.definition, c ≠ '}') →
      stripTooltips (List.foldl renderStep T l ++ S) = T ++ stripTooltips S := by
  induction l with
  | nil =>
    intro T S hT _ _
    exact strip_append_braceFree T (fun c hc => (hT c hc).1) S
  | cons s rest ih =>
    intro T S hT hsort hm
    obtain ⟨hp, hq, hterm, hdef⟩ := hm s (by simp)
    rcases List.pairwise_cons.mp hsort with ⟨hhead, htail⟩
    have hplen : s.position ≤ T.length := by omega
    have htermlen : s.term.length = s.end_position - s.position := by
      rw [hterm]
      exact pySlice_length (by omega) hq
    rw [List.foldl_cons]
    have hrs : renderStep T s =
        T.take s.position ++ (tooltipMarkup s.term s.definition ++ T.drop s.end_position) := by
      rw [renderStep, List.append_assoc]
    have hsplit : List.foldl renderStep (renderStep T s) rest =
        List.foldl renderStep (T.take s.position) rest ++
          (tooltipMarkup s.term s.definition ++ T.drop s.end_position) := by
      rw [hrs]
      refine renderFold_append rest (T.take s.position) _ ?_
      intro m hmm
      obtain ⟨h1, h2, h3, _⟩ := hm m (by simp [hmm])
      have hend : m.end_position ≤ s.position := hhead m hmm
      refine ⟨h1, ?_, ?_⟩
      · rw [List.length_take, Nat.min_eq_left hplen]
        exact hend
      · rw [h3]
        exact pySlice_length (by omega) h2
    rw [hsplit, List.append_assoc, List.append_assoc]
    have hm2 : ∀ m ∈ rest, m.position < m.end_position ∧
        m.end_position ≤ (T.take s.position).length ∧
        m.term = pySlice (T.take s.position) m.position m.end_position ∧
        ∀ c ∈ m.definition, c ≠ '}' := by
      intro m hmm
      obtain ⟨h1, h2, h3, h4⟩ := hm m (by simp [hmm])
      have hend : m.end_position ≤ s.position := hhead m hmm
      refine ⟨h1, ?_, ?_, h4⟩
      · rw [List.length_take, Nat.min_eq_left hplen]
        exact hend
      · rw [h3, pySlice_take hend]
    have hTtake : ∀ c ∈ T.take s.position, c ≠ '{' ∧ c ≠ '}' ∧ c ≠ '|' :=
      fun c hc => hT c (List.take_subset _ _ hc)
    rw [ih (T.take s.position)
      (tooltipMarkup s.term s.definition ++ (T.drop s.end_position ++ S)) hTtake htail hm2]
    have hwne : s.term ≠ [] := by
      intro he
      rw [he] at htermlen
      simp at htermlen
      omega
    have hwp : ∀ c ∈ s.term, c ≠ '|' :=
      fun c hc => (hT c (pySlice_subset (hterm ▸ hc))).2.2
    rw [strip_markup_head hwne hwp hdef,
      strip_append_braceFree (T.drop s.end_position)
        (fun c hc => (hT c (List.drop_subset _ _ hc)).1) S]
    have htake : T.take s.position ++ s.term = T.take s.end_position := by
      rw [hterm, pySlice]
      have h := List.take_add T s.position (s.end_position - s.position)
      rw [show s.position + (s.end_position - s.position) = s.end_position by omega] at h
      exact h.symm
    rw [← List.append_assoc, ← List.append_assoc, htake, List.append_assoc,
      ← List.append_assoc, List.take_append_drop]

end RenderLemmas

section MatcherLemmas

theorem lowerEq_length : ∀ {a b : Text}, lowerEq a b = true → a.length = b.length := by
  intro a
  induction a with
  | nil =>
    intro b h
    cases b with
    | nil => rfl
    | cons d ds => simp [lowerEq] at h
  | cons c cs ih =>
    intro b h
    cases b with
    | nil => simp [lowerEq] at h
    | cons d ds =>
      simp only [lowerEq, Bool.and_eq_true] at h
      simp [ih h.2]

theorem findIterAux_mem {s lit : Text} :
    ∀ (fuel i : Nat) {pq : Nat × Nat}, pq ∈ findIterAux s lit fuel i →
      matchAt s pq.1 lit = true ∧ pq.2 = pq.1 + lit.length ∧ pq.1 ≤ s.length := by
  intro fuel
  induction fuel with
  | zero => intro i pq h; simp [findIterAux] at h
  | succ fuel' ih =>
    intro i pq h
    rw [findIterAux] at h
    split at h
    · simp at h
    · rename_i hle
      split at h
      · rcases List.mem_cons.mp h with rfl | h
        · rename_i hmatch
          exact ⟨hmatch, rfl, by omega⟩
        · exact ih _ h
      · exact ih _ h

theorem matchAt_bounds {s lit : Text} {i : Nat} (h : matchAt s i lit = true)
    (hi : i ≤ s.length) : i + lit.length ≤ s.length := by
  rw [matchAt] at h
  simp only [Bool.and_eq_true] at h
  have hlen := lowerEq_length h.2
  simp only [List.length_take, List.length_drop] at hlen
  omega

theorem find_mem_props {T : Text} {G : List GlossaryEntry} {m : TermMatch}
    (h : m ∈ find_technical_terms T G) :
    ∃ e ∈ G, m.definition = entryDefinition e ∧
      m.term = pySlice T m.position m.end_position ∧
      m.end_position = m.position + e.clinical_term.length ∧
      m.end_position ≤ T.length := by
  have h1 : m ∈ (sortBy (fun a b : GlossaryEntry =>
      decide (b.clinical_term.length ≤ a.clinical_term.length)) G).flatMap (fun entry =>
    (findIter T (toLowerText entry.clinical_term)).map (fun pq =>
      { term := pySlice T pq.1 pq.2
        position := pq.1
        end_position := pq.2
        definition := entryDefinition entry
        category := entryCategory entry })) :=
    mem_sortBy.mp (sweepAux_subset h)
  rcases List.mem_flatMap.mp h1 with ⟨e, he, hmem⟩
  rcases List.mem_map.mp hmem with ⟨pq, hpq, hmk⟩
  obtain ⟨hmatch, hlen, hle⟩ := findIterAux_mem _ _ hpq
  have hbound := matchAt_bounds hmatch hle
  have hlit : (toLowerText e.clinical_term).length = e.clinical_term.length := by
    simp [toLowerText]
  refine ⟨e, mem_sortBy.mp he, ?_, ?_, ?_, ?_⟩
  · rw [← hmk]
  · rw [← hmk]
  · rw [← hmk]
    simp only []
    omega
  · rw [← hmk]
    simp only []
    omega

theorem find_pairwise_ordered (T : Text) (G : List GlossaryEntry) :
    (find_technical_terms T G).Pairwise (fun a b => a.end_position ≤ b.position) := by
  have htot : ∀ a b : TermMatch,
      (decide (a.position ≤ b.position)) = true ∨ (decide (b.position ≤ a.position)) = true := by
    intro a b
    simpa using Nat.le_total a.position b.position
  have htrans : ∀ a b c : TermMatch, (decide (a.position ≤ b.position)) = true →
      (decide (b.position ≤ c.position)) = true → (decide (a.position ≤ c.position)) = true := by
    intro a b c h1 h2
    simp only [decide_eq_true_eq] at h1 h2 ⊢
    omega
  exact sweepAux_pairwise _ []
    ((pairwise_sortBy htot htrans _).imp (fun h => of_decide_eq_true h)) (by simp)

theorem injectSelected_subset {T : Text} {G : List GlossaryEntry} {n : Nat} {m : TermMatch}
    (h : m ∈ injectSelected T G n) : m ∈ find_technical_terms T G :=
  mem_sortBy.mp
    (List.take_subset _ _ (mem_sortBy.mp h))

theorem injectSelected_pairwise (T : Text) (G : List GlossaryEntry) (n : Nat)
    (hne : ∀ m ∈ find_technical_terms T G, m.position < m.end_position) :
    (injectSelected T G n).Pairwise (fun a b => b.end_position ≤ a.position) := by
  have hsymm : ∀ {x y : TermMatch},
      (x.end_position ≤ y.position ∨ y.end_position ≤ x.position) →
      (y.end_position ≤ x.position ∨ x.end_position ≤ y.position) := by
    intro x y h
    tauto
  have h1 : (find_technical_terms T G).Pairwise (fun a b =>
      a.end_position ≤ b.position ∨ b.end_position ≤ a.position) :=
    (find_pairwise_ordered T G).imp Or.inl
  have h2 := ((sortBy_perm (r := fun a b : TermMatch =>
      decide (priorityScore b ≤ priorityScore a)) (find_technical_terms T G)).pairwise_iff
      hsymm).mpr h1
  have h3 := List.Pairwise.sublist (List.take_sublist n _) h2
  have h4 := ((sortBy_perm (r := fun a b : TermMatch =>
      decide (b.position ≤ a.position)) _).pairwise_iff hsymm).mpr h3
  have htot : ∀ a b : TermMatch,
      (decide (b.position ≤ a.position)) = true ∨ (decide (a.position ≤ b.position)) = true := by
    intro a b
    simpa using (Nat.le_total b.position a.position)
  have htrans : ∀ a b c : TermMatch, (decide (b.position ≤ a.position)) = true →
      (decide (c.position ≤ b.position)) = true → (decide (c.position ≤ a.position)) = true := by
    intro a b c h1 h2
    simp only [decide_eq_true_eq] at h1 h2 ⊢
    omega
  have h5 : (injectSelected T G n).Pairwise (fun a b => b.position ≤ a.position) :=
    (pairwise_sortBy htot htrans _).imp (fun h => of_decide_eq_true h)
  refine ((h4.and h5).imp_of_mem ?_)
  intro a b ha hb hab
  have hnea : a.position < a.end_position := hne a (injectSelected_subset ha)
  rcases hab.1 with hc | hc
  · omega
  · exact hc

theorem foldPair_fst (l : List TermMatch) :
    ∀ (t : Text) (d0 : List (Text × Text)),
      (l.foldl (fun acc m => (renderStep acc.1 m, dictInsert m.term m.definition acc.2))
        (t, d0)).1 = l.foldl renderStep t := by
  induction l with
  | nil => intro t d0; rfl
  | cons s rest ih => intro t d0; exact ih _ _

end MatcherLemmas

/-- C1 (counterexample): for a text that itself looks like tooltip markup
and an empty glossary, `inject_tooltips` returns the text unchanged, yet
stripping the markup pattern (the validator's third check) rewrites the
pre-existing span to its bare term, so the round trip fails even after
whitespace normalization, and the validator rejects its own no-op
injection. -/
theorem C1_counterexample :
    inject_tooltips c1BadText [] 5 = (c1BadText, []) ∧
    stripTooltips ((inject_tooltips c1BadText [] 5).1) ≠ c1BadText ∧
    pyStrip (stripTooltips ((inject_tooltips c1BadText [] 5).1)) ≠ pyStrip c1BadText ∧
    validate_tooltip_injection c1BadText ((inject_tooltips c1BadText [] 5).1) =
      (false, "Original content altered") := by
  decide

/-- C1 (amended): for every text containing none of the markup characters
`{`, `}`, `|`, and every glossary whose terms are non-empty and whose
definitions contain no `}`, stripping each `{{term||definition}}` span of
`inject_tooltips`'s output (with the validator's strip pattern)
reproduces the input text exactly, for every tooltip budget. -/
theorem C1_round_trip (T : Text) (G : List GlossaryEntry) (n : Nat)
    (hT : ∀ c ∈ T, c ≠ '{' ∧ c ≠ '}' ∧ c ≠ '|')
    (hG1 : ∀ e ∈ G, e.clinical_term ≠ [])
    (hG2 : ∀ e ∈ G, ∀ c ∈ entryDefinition e, c ≠ '}') :
    stripTooltips ((inject_tooltips T G n).1) = T := by
  have hstripnil : stripTooltips ([] : Text) = [] := rfl
  have hne : ∀ m ∈ find_technical_terms T G, m.position < m.end_position := by
    intro m hm
    obtain ⟨e, he, _, _, hlen, _⟩ := find_mem_props hm
    have h0 : e.clinical_term.length ≠ 0 := by
      intro h0
      exact hG1 e he (List.length_eq_zero.mp h0)
    omega
  cases hempty : (find_technical_terms T G).isEmpty with
  | true =>
    simp only [inject_tooltips, hempty, if_true]
    have h := strip_append_braceFree T (fun c hc => (hT c hc).1) []
    rw [List.append_nil, hstripnil, List.append_nil] at h
    exact h
  | false =>
    simp only [inject_tooltips, hempty, Bool.false_eq_true, if_false]
    rw [foldPair_fst]
    have hprops : ∀ m ∈ injectSelected T G n, m.position < m.end_position ∧
        m.end_position ≤ T.length ∧
        m.term = pySlice T m.position m.end_position ∧
        ∀ c ∈ m.definition, c ≠ '}' := by
      intro m hm
      have hfind := injectSelected_subset hm
      obtain ⟨e, he, hdef, hterm, hlen, hbound⟩ := find_mem_props hfind
      exact ⟨hne m hfind, hbound, hterm, fun c hc => hG2 e he c (hdef ▸ hc)⟩
    have hmain := strip_renderFold (injectSelected T G n) T [] hT
      (injectSelected_pairwise T G n hne) hprops
    rw [List.append_nil, hstripnil, List.append_nil] at hmain
    exact hmain

/-- Witness for C1 at the specification's concrete injection scenario. -/
theorem C1_round_trip_witness :
    (∀ c ∈ c1WitnessText, c ≠ '{' ∧ c ≠ '}' ∧ c ≠ '|') ∧
    (∀ e ∈ amygdalaGlossary, e.clinical_term ≠ []) ∧
    (∀ e ∈ amygdalaGlossary, ∀ c ∈ entryDefinition e, c ≠ '}') ∧
    stripTooltips ((inject_tooltips c1WitnessText amygdalaGlossary 5).1) = c1WitnessText :=
  ⟨by decide, by decide, by decide,
    C1_round_trip c1WitnessText amygdalaGlossary 5 (by decide) (by decide) (by decide)⟩
